import Mathlib

/-!
Verification of the dogeplot history-cleaning scripts.

This file gives a shallow embedding of the two scripts of the repository:

* clean_repo.py : ten byte-level detection regexes and the two
  git-filter-repo callbacks clean_message and clean_blob, each a sequence
  of re.sub passes replacing every match by the marker ***REMOVED***.
* clean_git_history.py : the GitHistoryCleaner class, with its fourteen
  text regexes (sensitive_patterns), its list of sensitive file globs
  (sensitive_files), the per-commit scanner scan_commit, the history walk
  scan_history, the destructive clean_history, and the interactive main.

Regular expressions are embedded as an explicit abstract syntax (character
classes with bounded repetition, sequencing, alternation and the multiline
anchors), together with a backtracking matcher that reproduces the
leftmost, greedy, first-success semantics of the Python re module, and
substitution and match-counting loops reproducing re.sub and re.finditer.
Bytes are natural numbers; byte strings are lists of natural numbers.
-/

/-- Byte at an index of a byte string; 0 past the end (total accessor). -/
def byteAt : List Nat → Nat → Nat
  | [], _ => 0
  | b :: _, 0 => b
  | _ :: t, n + 1 => byteAt t n

/-- ASCII bytes of a string literal (all strings used here are ASCII). -/
def strBytes (s : String) : List Nat := s.data.map Char.toNat

/-- A byte class: a set of inclusive byte ranges, possibly negated. -/
structure Cls where
  neg : Bool
  ranges : List (Nat × Nat)
deriving DecidableEq

/-- Membership of a byte in a class. -/
def Cls.mem (c : Cls) (b : Nat) : Bool :=
  let inR := c.ranges.any (fun r => decide (r.1 ≤ b) && decide (b ≤ r.2))
  if c.neg then !inR else inR

/-- Embedded regular expressions.  cls c mn mx is a greedy repetition of a
byte class with at least mn and (when mx is given) at most mx occurrences;
bol and eol are the multiline anchors. -/
inductive RE where
  | eps : RE
  | cls (c : Cls) (mn : Nat) (mx : Option Nat) : RE
  | seq (a b : RE) : RE
  | alt (a b : RE) : RE
  | bol : RE
  | eol : RE
deriving DecidableEq

/-- Length of the longest prefix of s starting at i whose bytes are all in
the class, capped at cap. -/
def availCls (c : Cls) (s : List Nat) (i : Nat) : Nat → Nat
  | 0 => 0
  | cap + 1 =>
    if decide (i < s.length) && c.mem (byteAt s i) then
      1 + availCls c s (i + 1) cap
    else 0

/-- Greedy repetition: try taking t characters first, then fewer, never
fewer than mn; k is the continuation on the position after the taken
characters. -/
def tryCounts (k : Nat → Option Nat) (i mn : Nat) : Nat → Option Nat
  | 0 => if mn = 0 then k i else none
  | t + 1 =>
    if t + 1 < mn then none
    else
      match k (i + t + 1) with
      | some e => some e
      | none => tryCounts k i mn t

/-- Backtracking matcher in continuation-passing style.  mre r s i k
explores the alternatives of r at position i of s in the preference order
of the Python re module (greedy repetitions longest first, left
alternative first) and returns the first success of the continuation. -/
def mre : RE → List Nat → Nat → (Nat → Option Nat) → Option Nat
  | .eps, _, i, k => k i
  | .cls c mn mx, s, i, k =>
    let cap := match mx with | some m => m | none => s.length
    tryCounts k i mn (availCls c s i cap)
  | .seq a b, s, i, k => mre a s i (fun j => mre b s j k)
  | .alt a b, s, i, k =>
    match mre a s i k with
    | some e => some e
    | none => mre b s i k
  | .bol, s, i, k => if i = 0 || byteAt s (i - 1) = 10 then k i else none
  | .eol, s, i, k => if i = s.length || byteAt s i = 10 then k i else none

/-- Scan successive start positions (at most t of them, from i) for the
first position where r matches; returns (start, end). -/
def findAux : Nat → RE → List Nat → Nat → Option (Nat × Nat)
  | 0, _, _, _ => none
  | t + 1, r, s, i =>
    match mre r s i some with
    | some e => some (i, e)
    | none => findAux t r s (i + 1)

/-- Leftmost match of r in s starting at or after position pos, as the
Python re search does. -/
def findFrom (r : RE) (s : List Nat) (pos : Nat) : Option (Nat × Nat) :=
  findAux (s.length + 1 - pos) r s pos

/-- Substitution loop of re.sub: repeatedly take the leftmost match at or
after the current position, emit the text before it and the replacement,
and continue after the match.  Fuel bounds the number of replacements; it
is always sufficient because every pattern of the catalogs matches at
least one byte. -/
def subAux : Nat → RE → List Nat → List Nat → Nat → List Nat
  | 0, _, _, s, pos => s.drop pos
  | f + 1, r, repl, s, pos =>
    match findFrom r s pos with
    | none => s.drop pos
    | some (i, e) =>
      if pos ≤ i ∧ i < e then
        (s.drop pos).take (i - pos) ++ repl ++ subAux f r repl s e
      else s.drop pos

/-- re.sub of a single pattern over a byte string. -/
def reSub (r : RE) (repl : List Nat) (s : List Nat) : List Nat :=
  subAux (s.length + 1) r repl s 0

/-- Number of matches found by the re.finditer loop. -/
def countAux : Nat → RE → List Nat → Nat → Nat
  | 0, _, _, _ => 0
  | f + 1, r, s, pos =>
    match findFrom r s pos with
    | none => 0
    | some (i, e) =>
      if pos ≤ i ∧ i < e then 1 + countAux f r s e else 0

/-- Number of non-overlapping matches of r in s (re.finditer). -/
def countMatches (r : RE) (s : List Nat) : Nat :=
  countAux (s.length + 1) r s 0

/- Character classes used by the catalogs.  Byte values: 9-13 are the
ASCII whitespace control characters, 32 the space, 34 the double quote,
39 the quote, 45 the dash, 46 the dot, 47 the slash, 48-57 the digits,
58 the colon, 61 the equals sign, 64 the at sign, 65-90 the upper-case
letters, 95 the underscore, 97-122 the lower-case letters, 10 the
newline, 42 the asterisk. -/

/-- Class [a-zA-Z0-9_] (the byte-level meaning of backslash-w). -/
def wordCls : Cls := ⟨false, [(48, 57), (65, 90), (97, 122), (95, 95)]⟩

/-- Class [a-f0-9]. -/
def hexCls : Cls := ⟨false, [(48, 57), (97, 102)]⟩

/-- Class [a-zA-Z0-9-_], as in the JWT pattern. -/
def jwtCls : Cls := ⟨false, [(48, 57), (65, 90), (97, 122), (45, 45), (95, 95)]⟩

/-- Class of an underscore or dash. -/
def undCls : Cls := ⟨false, [(95, 95), (45, 45)]⟩

/-- Class of word characters, dash and dot. -/
def wddCls : Cls := ⟨false, [(48, 57), (65, 90), (97, 122), (95, 95), (45, 45), (46, 46)]⟩

/-- Class [0-9a-zA-Z]. -/
def alnumCls : Cls := ⟨false, [(48, 57), (65, 90), (97, 122)]⟩

/-- Class [a-zA-Z0-9_-]. -/
def wdashCls : Cls := ⟨false, [(48, 57), (65, 90), (97, 122), (95, 95), (45, 45)]⟩

/-- Class [0-9]. -/
def digitCls : Cls := ⟨false, [(48, 57)]⟩

/-- Class [a-z0-9]. -/
def lowAlnumCls : Cls := ⟨false, [(48, 57), (97, 122)]⟩

/-- Class [p|b|o|a] of the Slack pattern (it contains the bar byte). -/
def pboaCls : Cls := ⟨false, [(112, 112), (124, 124), (98, 98), (111, 111), (97, 97)]⟩

/-- Whitespace class (the byte-level meaning of backslash-s). -/
def wsCls : Cls := ⟨false, [(9, 13), (32, 32)]⟩

/-- Negated class: anything but a slash or whitespace. -/
def noSlashWsCls : Cls := ⟨true, [(47, 47), (9, 13), (32, 32)]⟩

/-- Negated class: anything but a colon or whitespace. -/
def noColonWsCls : Cls := ⟨true, [(58, 58), (9, 13), (32, 32)]⟩

/-- Negated class: anything but an at sign or whitespace. -/
def noAtWsCls : Cls := ⟨true, [(64, 64), (9, 13), (32, 32)]⟩

/-- Negated class: anything but whitespace. -/
def noWsCls : Cls := ⟨true, [(9, 13), (32, 32)]⟩

/-- The dot of a non-dotall pattern: anything but a newline. -/
def dotCls : Cls := ⟨true, [(10, 10)]⟩

/-- Class of a double quote or quote. -/
def qtCls : Cls := ⟨false, [(34, 34), (39, 39)]⟩

/-- Class of a colon or equals sign. -/
def colEqCls : Cls := ⟨false, [(58, 58), (61, 61)]⟩

/-- A single literal byte. -/
def chr (b : Nat) : RE := .cls ⟨false, [(b, b)]⟩ 1 (some 1)

/-- A single byte, case-insensitively when it is a letter. -/
def ichr (b : Nat) : RE :=
  if 97 ≤ b ∧ b ≤ 122 then .cls ⟨false, [(b, b), (b - 32, b - 32)]⟩ 1 (some 1)
  else if 65 ≤ b ∧ b ≤ 90 then .cls ⟨false, [(b, b), (b + 32, b + 32)]⟩ 1 (some 1)
  else chr b

/-- Sequence of a list of expressions. -/
def cat (l : List RE) : RE := l.foldr .seq .eps

/-- Case-sensitive literal. -/
def lit (t : String) : RE := cat ((strBytes t).map chr)

/-- Case-insensitive literal. -/
def ilit (t : String) : RE := cat ((strBytes t).map ichr)

/-- Optional class occurrence. -/
def copt (c : Cls) : RE := .cls c 0 (some 1)

/-- Greedy star of a class. -/
def cstar (c : Cls) : RE := .cls c 0 none

/-- Greedy plus of a class. -/
def cplus (c : Cls) : RE := .cls c 1 none

/-! The ten byte patterns of clean_repo.py, in catalog order. -/

/-- Pattern 1 of clean_repo.py: the JWT shape. -/
def crp1 : RE :=
  cat [lit "eyJ", cplus jwtCls, chr 46, cplus jwtCls, chr 46, cplus jwtCls]

/-- Pattern 2 of clean_repo.py: 32 or more hexadecimal characters. -/
def crp2 : RE := .cls hexCls 32 none

/-- Pattern 3 of clean_repo.py: api key followed by word characters. -/
def crp3 : RE :=
  cat [ilit "api", copt undCls, ilit "key", copt undCls, cplus wddCls]

/-- Pattern 4 of clean_repo.py: secret key followed by word characters. -/
def crp4 : RE :=
  cat [ilit "secret", copt undCls, ilit "key", copt undCls, cplus wddCls]

/-- Pattern 5 of clean_repo.py: password followed by word characters. -/
def crp5 : RE := cat [ilit "password", copt undCls, cplus wddCls]

/-- Pattern 6 of clean_repo.py: token followed by word characters. -/
def crp6 : RE := cat [ilit "token", copt undCls, cplus wddCls]

/-- Pattern 7 of clean_repo.py: the sk- token shape with 48 characters. -/
def crp7 : RE := cat [lit "sk-", .cls alnumCls 48 (some 48)]

/-- Pattern 8 of clean_repo.py: the Slack token shape. -/
def crp8 : RE :=
  cat [lit "xox", .cls pboaCls 1 (some 1), chr 45, .cls digitCls 12 (some 12),
       chr 45, .cls digitCls 12 (some 12), chr 45, .cls digitCls 12 (some 12),
       chr 45, .cls lowAlnumCls 32 (some 32)]

/-- Pattern 9 of clean_repo.py: a URL with an x- component of 24 characters. -/
def crp9 : RE :=
  cat [lit "http", .alt (chr 115) .eps, lit "://", cplus noSlashWsCls,
       lit "/x-", .cls wdashCls 24 (some 24)]

/-- Pattern 10 of clean_repo.py: credentials embedded in a URL. -/
def crp10 : RE :=
  cat [cstar wdashCls, chr 58, cplus wdashCls, chr 64, cplus wdashCls,
       chr 46, cplus wdashCls]

/-- The pattern catalog of clean_repo.py, in source order. -/
def cleanRepoPatterns : List RE :=
  [crp1, crp2, crp3, crp4, crp5, crp6, crp7, crp8, crp9, crp10]

/-- The redaction marker of clean_repo.py. -/
def marker : List Nat := strBytes "***REMOVED***"

/-- clean_message of clean_repo.py: one re.sub pass per pattern, in
catalog order, each pass operating on the output of the previous one. -/
def cleanMessage (message : List Nat) : List Nat :=
  cleanRepoPatterns.foldl (fun acc p => reSub p marker acc) message

/-- clean_blob of clean_repo.py: the same substitution passes applied to
the data of a blob. -/
def cleanBlob (blobData : List Nat) : List Nat :=
  cleanRepoPatterns.foldl (fun acc p => reSub p marker acc) blobData

/-! The fourteen text patterns of GitHistoryCleaner.sensitive_patterns in
clean_git_history.py, in source order.  They are case-insensitive except
the last one; the scanned content is ASCII text, embedded as bytes. -/

/-- The common tail with a colon or equals separator and a value of at
least n word-or-dash characters, with optional quotes. -/
def kvTail (n : Nat) : RE :=
  cat [copt qtCls, cstar wsCls, .cls colEqCls 1 (some 1), cstar wsCls,
       copt qtCls, .cls wdashCls n none, copt qtCls]

/-- Sensitive pattern 1: api key assignment. -/
def shp1 : RE := cat [ilit "api", copt undCls, ilit "key", kvTail 16]

/-- Sensitive pattern 2: api secret assignment. -/
def shp2 : RE := cat [ilit "api", copt undCls, ilit "secret", kvTail 16]

/-- Sensitive pattern 3: openai api key assignment with an sk- value. -/
def shp3 : RE :=
  cat [ilit "openai", copt undCls, ilit "api", copt undCls, ilit "key",
       copt qtCls, cstar wsCls, .cls colEqCls 1 (some 1), cstar wsCls,
       copt qtCls, ilit "sk-", cplus wdashCls, copt qtCls]

/-- Sensitive pattern 4: gemini api key assignment. -/
def shp4 : RE :=
  cat [ilit "gemini", copt undCls, ilit "api", copt undCls, ilit "key", kvTail 16]

/-- Sensitive pattern 5: congress api key assignment. -/
def shp5 : RE :=
  cat [ilit "congress", copt undCls, ilit "api", copt undCls, ilit "key", kvTail 16]

/-- Sensitive pattern 6: supabase url or key assignment. -/
def shp6 : RE :=
  cat [ilit "supabase", copt undCls, .alt (ilit "url") (ilit "key"), kvTail 16]

/-- Sensitive pattern 7: token assignment. -/
def shp7 : RE := cat [ilit "token", kvTail 16]

/-- Sensitive pattern 8: secret assignment. -/
def shp8 : RE := cat [ilit "secret", kvTail 16]

/-- Sensitive pattern 9: password assignment with a value of at least 8. -/
def shp9 : RE := cat [ilit "password", kvTail 8]

/-- Sensitive pattern 10: VITE environment variable with KEY in the name. -/
def shp10 : RE :=
  cat [ilit "VITE_", cstar wordCls, ilit "KEY", cstar wordCls, chr 61,
       copt qtCls, .cls wdashCls 8 none, copt qtCls]

/-- Sensitive pattern 11: VITE environment variable with SECRET in the name. -/
def shp11 : RE :=
  cat [ilit "VITE_", cstar wordCls, ilit "SECRET", cstar wordCls, chr 61,
       copt qtCls, .cls wdashCls 8 none, copt qtCls]

/-- Sensitive pattern 12: VITE environment variable with TOKEN in the name. -/
def shp12 : RE :=
  cat [ilit "VITE_", cstar wordCls, ilit "TOKEN", cstar wordCls, chr 61,
       copt qtCls, .cls wdashCls 8 none, copt qtCls]

/-- Sensitive pattern 13: URL with embedded credentials. -/
def shp13 : RE :=
  cat [ilit "http", .alt (ichr 115) .eps, lit "://", cplus noColonWsCls,
       chr 58, cplus noAtWsCls, chr 64, cplus noWsCls]

/-- Sensitive pattern 14: a whole line assigning an environment variable,
with multiline anchors and an optional export keyword. -/
def shp14 : RE :=
  cat [.bol, cstar wsCls, .alt (cat [lit "export", cplus wsCls]) .eps,
       cplus wordCls, chr 61, cplus dotCls, .eol]

/-- GitHistoryCleaner.sensitive_patterns, in source order. -/
def sensPatterns : List RE :=
  [shp1, shp2, shp3, shp4, shp5, shp6, shp7, shp8, shp9, shp10, shp11,
   shp12, shp13, shp14]

/-- GitHistoryCleaner.sensitive_files, in source order, as byte strings. -/
def sensitiveFiles : List (List Nat) :=
  [strBytes ".env", strBytes ".env.local", strBytes ".env.development",
   strBytes ".env.production", strBytes ".env.staging",
   strBytes "credentials.json", strBytes "config.json",
   strBytes "secrets.json", strBytes "*.key", strBytes "*.pem",
   strBytes "*.pfx", strBytes "*.p12", strBytes "*.keystore"]

/-- Shell-style glob matching of a pattern against a file name: byte 42
(the asterisk) matches any sequence of bytes, every other byte matches
itself.  The sensitive_files entries use no other glob syntax. -/
def globMatch : List Nat → List Nat → Bool
  | [], name => name.isEmpty
  | 42 :: ps, name => name.tails.any (fun t => globMatch ps t)
  | p :: ps, name =>
    match name with
    | [] => false
    | c :: ns => p = c && globMatch ps ns

/-- The single argument string that clean_history builds for the path
removal step: the space-join of sensitive_files. -/
def sensitiveFilesArg : List Nat :=
  (sensitiveFiles.intersperse (strBytes " ")).foldr (· ++ ·) []

/-- Modelled from the spec: the path-exclusion side of the external
history-rewrite engine (git filter-repo with inverted paths), which is
not part of this repository.  Following section 4.5 and section 6 of the
specification, the engine receives path patterns and removes from every
historical commit tree every path matching one of them; a history is a
list of commit trees, a tree a list of paths. -/
def engineInvertPaths (pats : List (List Nat)) (history : List (List (List Nat))) :
    List (List (List Nat)) :=
  history.map (fun tree => tree.filter (fun path => !(pats.any (fun p => globMatch p path))))

/-- The path-removal step of GitHistoryCleaner.clean_history as the code
invokes it: the engine is given the single space-joined argument. -/
def cleanHistoryPathRemoval (history : List (List (List Nat))) :
    List (List (List Nat)) :=
  engineInvertPaths [sensitiveFilesArg] history

/-- scan_commit of clean_git_history.py on the content of one commit: for
every pattern, every finditer match adds the same finding string (commit
hash and pattern, no span), into a set.  The resulting set is modelled as
the list of indices of the patterns with at least one match. -/
def scanCommit (content : List Nat) : List Nat :=
  (List.range sensPatterns.length).filter
    (fun k => (findFrom (sensPatterns.getD k .eps) content 0).isSome)

/-- scan_commit including its error handling: when the content of the
commit cannot be read (the subprocess raises), the except branch prints a
message and returns the empty set. -/
def scanCommitOpt : Option (List Nat) → List Nat
  | none => []
  | some content => scanCommit content

/-- The loop of scan_history from commit index i on: findings of each
commit, tagged with the commit index, in walk order. -/
def scanHistoryFrom : Nat → List (Option (List Nat)) → List (Nat × Nat)
  | _, [] => []
  | i, u :: us => (scanCommitOpt u).map (fun k => (i, k)) ++ scanHistoryFrom (i + 1) us

/-- scan_history of clean_git_history.py: walk all commits (given here as
their readable content, or none for an unreadable one) and collect all
findings. -/
def scanHistory (units : List (Option (List Nat))) : List (Nat × Nat) :=
  scanHistoryFrom 0 units

/-- The externally visible steps of clean_history, in order. -/
inductive Step where
  | backupCreate : Step
  | backupVerify : Step
  | filterPaths : Step
  | filterReplace (idx : Nat) : Step
deriving DecidableEq

/-- Whether a step mutates the repository history. -/
def Step.destructive : Step → Bool
  | .filterPaths => true
  | .filterReplace _ => true
  | _ => false

/-- The step trace of GitHistoryCleaner.clean_history.  The parameter
records whether the backup bundle command succeeded; the code calls
subprocess.run without checking its result, so the trace does not depend
on it: the filter steps run unconditionally after the bundle command, and
no verification step exists. -/
def cleanHistoryTrace (_backupOk : Bool) : List Step :=
  [Step.backupCreate, Step.filterPaths] ++
    (List.range sensPatterns.length).map Step.filterReplace

/-- The observable actions of main in clean_git_history.py. -/
inductive MainStep where
  | promptProceed : MainStep
  | scanAll : MainStep
  | printFinding (f : Nat × Nat) : MainStep
  | promptClean : MainStep
  | cleanRun : MainStep
  | printNoFindings : MainStep
  | printCancelled : MainStep
deriving DecidableEq

/-- main of clean_git_history.py: ask to proceed, scan, report, ask to
clean, maybe clean.  The function returns on every path without setting
an exit status, so the process exit code is 0 in every case; the second
component records it. -/
def mainRun (proceed : Bool) (units : List (Option (List Nat)))
    (cleanAnswer : Bool) : List MainStep × Nat :=
  if !proceed then ([MainStep.promptProceed, MainStep.printCancelled], 0)
  else if (scanHistory units).isEmpty then
    ([MainStep.promptProceed, MainStep.scanAll, MainStep.printNoFindings], 0)
  else if cleanAnswer then
    ([MainStep.promptProceed, MainStep.scanAll] ++
      (scanHistory units).map MainStep.printFinding ++
      [MainStep.promptClean, MainStep.cleanRun], 0)
  else
    ([MainStep.promptProceed, MainStep.scanAll] ++
      (scanHistory units).map MainStep.printFinding ++
      [MainStep.promptClean, MainStep.printCancelled], 0)

/-! Concrete inputs used by the claims. -/

/-- Scenario A message of the specification. -/
def msgA : List Nat := strBytes "api_key: abcdef0123456789"

/-- Content on which the idempotence of the redaction fails: the first
pass replaces the inner URL match, and the marker then bridges the outer
URL prefix and the remaining x- component. -/
def idemC : List Nat :=
  strBytes "http://uhttp://m/x-AAAAAAAAAAAAAAAAAAAAAAAAv/x-BBBBBBBBBBBBBBBBBBBBBBBB"

/-- Content with two assignment lines: two matches of the environment
assignment pattern at different spans. -/
def twoAssign : List Nat := strBytes "a=b\nc=d"

/-- Content embedding a 40-character lower-case hexadecimal commit id. -/
def commitIdLine : List Nat :=
  strBytes "commit 0123456789abcdef0123456789abcdef01234567\n"

/-- A one-commit history whose tree holds a sensitive path. -/
def envHistory : List (List (List Nat)) :=
  [[strBytes ".env", strBytes "README.md"]]

/-! Index lemmas for the total byte accessor. -/

theorem byteAt_drop (p : Nat) : ∀ (s : List Nat) (k : Nat),
    byteAt (s.drop p) k = byteAt s (p + k) := by
  induction p with
  | zero => intro s k; simp [Nat.zero_add]
  | succ p ih =>
    intro s k
    cases s with
    | nil => simp [byteAt]
    | cons h t =>
      show byteAt (t.drop p) k = byteAt (h :: t) (p + 1 + k)
      rw [ih t k]
      have : p + 1 + k = (p + k) + 1 := by omega
      rw [this]
      rfl

theorem byteAt_append_left : ∀ (a b : List Nat) (k : Nat), k < a.length →
    byteAt (a ++ b) k = byteAt a k := by
  intro a
  induction a with
  | nil => intro b k h; simp at h
  | cons h t ih =>
    intro b k hk
    cases k with
    | zero => rfl
    | succ k =>
      show byteAt (t ++ b) k = byteAt t k
      exact ih b k (by simpa using Nat.lt_of_succ_lt_succ hk)

theorem byteAt_append_right : ∀ (a b : List Nat) (k : Nat),
    byteAt (a ++ b) (a.length + k) = byteAt b k := by
  intro a
  induction a with
  | nil => intro b k; simp [Nat.zero_add]
  | cons h t ih =>
    intro b k
    have : (h :: t).length + k = (t.length + k) + 1 := by simp; omega
    rw [this]
    show byteAt (t ++ b) (t.length + k) = byteAt b k
    exact ih b k

theorem byteAt_take : ∀ (s : List Nat) (n k : Nat), k < n →
    byteAt (s.take n) k = byteAt s k := by
  intro s
  induction s with
  | nil => intro n k h; simp [List.take]
  | cons h t ih =>
    intro n k hk
    cases n with
    | zero => omega
    | succ n =>
      cases k with
      | zero => rfl
      | succ k =>
        show byteAt (t.take n) k = byteAt t k
        exact ih n k (by omega)

/-- A run of 32 consecutive hexadecimal bytes at position j of s: the
content shape matched by pattern 2 of clean_repo.py. -/
def hexRunAt (s : List Nat) (j : Nat) : Prop :=
  j + 32 ≤ s.length ∧ ∀ k, k < 32 → hexCls.mem (byteAt s (j + k)) = true

instance (s : List Nat) (j : Nat) : Decidable (hexRunAt s j) := by
  unfold hexRunAt; infer_instance

theorem hexRunAt_drop_elim {s : List Nat} {p j : Nat}
    (h : hexRunAt (s.drop p) j) : hexRunAt s (p + j) := by
  obtain ⟨hlen, hmem⟩ := h
  rw [List.length_drop] at hlen
  refine ⟨by omega, fun k hk => ?_⟩
  have := hmem k hk
  rw [byteAt_drop] at this
  have harr : p + (j + k) = (p + j) + k := by omega
  rwa [harr] at this

theorem hexRunAt_take_drop_elim {s : List Nat} {pos n j : Nat}
    (h : hexRunAt ((s.drop pos).take n) j) :
    hexRunAt s (pos + j) ∧ j + 32 ≤ n := by
  obtain ⟨hlen, hmem⟩ := h
  rw [List.length_take, List.length_drop] at hlen
  have hn : j + 32 ≤ n := le_trans hlen (min_le_left _ _)
  have hs : j + 32 ≤ s.length - pos := le_trans hlen (min_le_right _ _)
  refine ⟨⟨by omega, fun k hk => ?_⟩, hn⟩
  have := hmem k hk
  rw [byteAt_take _ _ _ (by omega), byteAt_drop] at this
  have harr : pos + (j + k) = (pos + j) + k := by omega
  rwa [harr] at this

/-- A hexadecimal run inside a concatenation whose middle block is
nonempty and holds no hexadecimal byte lies wholly inside the left or the
right part. -/
theorem hexRun_append {A B C : List Nat}
    (hB : ∀ k, k < B.length → hexCls.mem (byteAt B k) = false)
    (hBne : 1 ≤ B.length) {j : Nat} (h : hexRunAt (A ++ (B ++ C)) j) :
    (∃ u, hexRunAt A u) ∨ (∃ u, hexRunAt C u) := by
  obtain ⟨hlen, hmem⟩ := h
  simp only [List.length_append] at hlen
  by_cases hA : j + 32 ≤ A.length
  · left
    refine ⟨j, hA, fun k hk => ?_⟩
    have := hmem k hk
    rwa [byteAt_append_left _ _ _ (by omega)] at this
  · by_cases hC : A.length + B.length ≤ j
    · right
      refine ⟨j - (A.length + B.length), by omega, fun k hk => ?_⟩
      have := hmem k hk
      have harr : j + k = A.length + (B.length + (j - (A.length + B.length) + k)) := by
        omega
      rwa [harr, byteAt_append_right, byteAt_append_right] at this
    · exfalso
      have hp1 : A.length ≤ max j A.length := le_max_right _ _
      have hp2 : max j A.length < A.length + B.length := by
        rcases max_cases j A.length with ⟨he, _⟩ | ⟨he, _⟩ <;> omega
      have hp3 : j ≤ max j A.length := le_max_left _ _
      have hp4 : max j A.length < j + 32 := by
        rcases max_cases j A.length with ⟨he, _⟩ | ⟨he, _⟩ <;> omega
      have htrue := hmem (max j A.length - j) (by omega)
      have harr : j + (max j A.length - j) = A.length + (max j A.length - A.length) := by
        omega
      rw [harr, byteAt_append_right] at htrue
      have hfalse := hB (max j A.length - A.length) (by omega)
      rw [byteAt_append_left _ _ _ (by omega)] at htrue
      rw [htrue] at hfalse
      simp at hfalse

/-! Lemmas about the matcher on the hexadecimal pattern. -/

theorem le_availCls (c : Cls) (s : List Nat) : ∀ (n j cap : Nat),
    j + n ≤ s.length → n ≤ cap →
    (∀ k, k < n → c.mem (byteAt s (j + k)) = true) →
    n ≤ availCls c s j cap := by
  intro n
  induction n with
  | zero => intro j cap _ _ _; exact Nat.zero_le _
  | succ n ih =>
    intro j cap hlen hcap hmem
    obtain ⟨cap1, rfl⟩ : ∃ c1, cap = c1 + 1 := ⟨cap - 1, by omega⟩
    have hj : j < s.length := by omega
    have h0 : c.mem (byteAt s j) = true := by
      have := hmem 0 (by omega)
      simpa using this
    have hcond : (decide (j < s.length) && c.mem (byteAt s j)) = true := by
      simp [hj, h0]
    rw [availCls, if_pos hcond]
    have htail : n ≤ availCls c s (j + 1) cap1 := by
      refine ih (j + 1) cap1 (by omega) (by omega) (fun k hk => ?_)
      have := hmem (k + 1) (by omega)
      have harr : j + (k + 1) = (j + 1) + k := by omega
      rwa [harr] at this
    omega

theorem tryCounts_top_isSome (i mn t : Nat) (h : mn ≤ t) :
    (tryCounts some i mn t).isSome = true := by
  cases t with
  | zero =>
    have : mn = 0 := by omega
    simp [tryCounts, this]
  | succ t =>
    have : ¬ (t + 1 < mn) := by omega
    simp [tryCounts, this]

theorem tryCounts_some_ge (i mn : Nat) : ∀ (t e : Nat),
    tryCounts some i mn t = some e → i + mn ≤ e := by
  intro t
  induction t with
  | zero =>
    intro e h
    rw [tryCounts] at h
    by_cases h0 : mn = 0
    · subst h0; simp at h; omega
    · simp [h0] at h
  | succ t ih =>
    intro e h
    rw [tryCounts] at h
    by_cases hlt : t + 1 < mn
    · simp [hlt] at h
    · simp only [if_neg hlt] at h
      simp at h
      omega

/-- A hexadecimal run at j gives a match of the hexadecimal pattern at j. -/
theorem mre_hex_isSome {s : List Nat} {j : Nat} (h : hexRunAt s j) :
    (mre crp2 s j some).isSome = true := by
  obtain ⟨hlen, hmem⟩ := h
  show (tryCounts some j 32 (availCls hexCls s j s.length)).isSome = true
  refine tryCounts_top_isSome _ _ _ ?_
  exact le_availCls hexCls s 32 j s.length hlen (by omega) hmem

/-- A match of the hexadecimal pattern spans at least 32 bytes. -/
theorem mre_hex_ge {s : List Nat} {j e : Nat} (h : mre crp2 s j some = some e) :
    j + 32 ≤ e := by
  exact tryCounts_some_ge j 32 _ e h

theorem findAux_none (r : RE) (s : List Nat) : ∀ (t i : Nat),
    findAux t r s i = none → ∀ q, i ≤ q → q < i + t → mre r s q some = none := by
  intro t
  induction t with
  | zero => intro i _ q _ _; omega
  | succ t ih =>
    intro i h q hq1 hq2
    rw [findAux] at h
    cases hm : mre r s i some with
    | some e => rw [hm] at h; simp at h
    | none =>
      rw [hm] at h
      by_cases hqi : q = i
      · subst hqi; exact hm
      · exact ih (i + 1) h q (by omega) (by omega)

theorem findAux_some (r : RE) (s : List Nat) : ∀ (t i j e : Nat),
    findAux t r s i = some (j, e) →
    i ≤ j ∧ mre r s j some = some e ∧
      ∀ q, i ≤ q → q < j → mre r s q some = none := by
  intro t
  induction t with
  | zero => intro i j e h; rw [findAux] at h; simp at h
  | succ t ih =>
    intro i j e h
    rw [findAux] at h
    cases hm : mre r s i some with
    | some e1 =>
      rw [hm] at h
      simp at h
      obtain ⟨rfl, rfl⟩ := h
      exact ⟨le_refl _, hm, fun q h1 h2 => by omega⟩
    | none =>
      rw [hm] at h
      obtain ⟨h1, h2, h3⟩ := ih (i + 1) j e h
      refine ⟨by omega, h2, fun q hq1 hq2 => ?_⟩
      by_cases hqi : q = i
      · subst hqi; exact hm
      · exact h3 q (by omega) hq2

theorem findFrom_none {r : RE} {s : List Nat} {pos : Nat}
    (h : findFrom r s pos = none) :
    ∀ q, pos ≤ q → q ≤ s.length → mre r s q some = none := by
  intro q h1 h2
  exact findAux_none r s _ pos h q h1 (by omega)

theorem findFrom_some {r : RE} {s : List Nat} {pos i e : Nat}
    (h : findFrom r s pos = some (i, e)) :
    pos ≤ i ∧ mre r s i some = some e ∧
      ∀ q, pos ≤ q → q < i → mre r s q some = none := by
  exact findAux_some r s _ pos i e h

/-- The marker contains no hexadecimal byte. -/
theorem marker_no_hex : ∀ k, k < marker.length → hexCls.mem (byteAt marker k) = false := by
  decide

/-- After the substitution pass of the hexadecimal pattern, no run of 32
hexadecimal bytes remains anywhere in the output. -/
theorem subAux_hex_noRun : ∀ (f : Nat) (s : List Nat) (pos : Nat),
    s.length + 1 ≤ f + pos → ∀ j, ¬ hexRunAt (subAux f crp2 marker s pos) j := by
  intro f
  induction f with
  | zero =>
    intro s pos hf j hr
    have := hr.1
    rw [subAux, List.length_drop] at this
    omega
  | succ f ih =>
    intro s pos hf j hr
    rw [subAux] at hr
    cases hFind : findFrom crp2 s pos with
    | none =>
      rw [hFind] at hr
      have hrun := hexRunAt_drop_elim hr
      have hm := mre_hex_isSome hrun
      have hnone := findFrom_none hFind (pos + j) (by omega) (by
        have := hrun.1; omega)
      rw [hnone] at hm
      simp at hm
    | some ie =>
      obtain ⟨i, e⟩ := ie
      rw [hFind] at hr
      dsimp only at hr
      obtain ⟨hpos, hmre, hleft⟩ := findFrom_some hFind
      have hie : i + 32 ≤ e := mre_hex_ge hmre
      rw [if_pos ⟨hpos, by omega⟩, List.append_assoc] at hr
      rcases hexRun_append marker_no_hex (by decide) hr with ⟨u, hu⟩ | ⟨u, hu⟩
      · obtain ⟨hrun, hub⟩ := hexRunAt_take_drop_elim hu
        have hm := mre_hex_isSome hrun
        have hnone := hleft (pos + u) (by omega) (by omega)
        rw [hnone] at hm
        simp at hm
      · exact ih s e (by omega) u hu

/-- A substitution pass with the marker as replacement never creates a
run of 32 hexadecimal bytes: any such run in the output was already
present in the input. -/
theorem subAux_run_preserve : ∀ (f : Nat) (r : RE) (s : List Nat) (pos j : Nat),
    hexRunAt (subAux f r marker s pos) j → ∃ u, hexRunAt s u := by
  intro f
  induction f with
  | zero =>
    intro r s pos j hr
    rw [subAux] at hr
    exact ⟨pos + j, hexRunAt_drop_elim hr⟩
  | succ f ih =>
    intro r s pos j hr
    rw [subAux] at hr
    cases hFind : findFrom r s pos with
    | none =>
      rw [hFind] at hr
      exact ⟨pos + j, hexRunAt_drop_elim hr⟩
    | some ie =>
      obtain ⟨i, e⟩ := ie
      rw [hFind] at hr
      dsimp only at hr
      by_cases hc : pos ≤ i ∧ i < e
      · rw [if_pos hc, List.append_assoc] at hr
        rcases hexRun_append marker_no_hex (by decide) hr with ⟨u, hu⟩ | ⟨u, hu⟩
        · exact ⟨pos + u, (hexRunAt_take_drop_elim hu).1⟩
        · exact ih r s e u hu
      · rw [if_neg hc] at hr
        exact ⟨pos + j, hexRunAt_drop_elim hr⟩

/-- No hexadecimal run survives the re.sub pass of the hexadecimal
pattern. -/
theorem reSub_hex_noRun (s : List Nat) (j : Nat) :
    ¬ hexRunAt (reSub crp2 marker s) j :=
  subAux_hex_noRun (s.length + 1) s 0 (by omega) j

/-- A re.sub pass with the marker preserves the absence of hexadecimal
runs. -/
theorem reSub_run_preserve (r : RE) (s : List Nat) (j : Nat)
    (h : hexRunAt (reSub r marker s) j) : ∃ u, hexRunAt s u :=
  subAux_run_preserve (s.length + 1) r s 0 j h

/-- The ten passes of clean_message, unfolded. -/
theorem cleanMessage_passes (s : List Nat) :
    cleanMessage s =
      reSub crp10 marker (reSub crp9 marker (reSub crp8 marker
        (reSub crp7 marker (reSub crp6 marker (reSub crp5 marker
          (reSub crp4 marker (reSub crp3 marker (reSub crp2 marker
            (reSub crp1 marker s))))))))) := by
  simp only [cleanMessage, cleanRepoPatterns, List.foldl_cons, List.foldl_nil]

/-- The output of clean_message contains no run of 32 or more
hexadecimal bytes. -/
theorem cleanMessage_noRun (s : List Nat) (j : Nat) :
    ¬ hexRunAt (cleanMessage s) j := by
  rw [cleanMessage_passes]
  intro h
  obtain ⟨u9, h9⟩ := reSub_run_preserve _ _ _ h
  obtain ⟨u8, h8⟩ := reSub_run_preserve _ _ _ h9
  obtain ⟨u7, h7⟩ := reSub_run_preserve _ _ _ h8
  obtain ⟨u6, h6⟩ := reSub_run_preserve _ _ _ h7
  obtain ⟨u5, h5⟩ := reSub_run_preserve _ _ _ h6
  obtain ⟨u4, h4⟩ := reSub_run_preserve _ _ _ h5
  obtain ⟨u3, h3⟩ := reSub_run_preserve _ _ _ h4
  obtain ⟨u2, h2⟩ := reSub_run_preserve _ _ _ h3
  exact reSub_hex_noRun _ _ h2

/-! Supporting lemma for claim C1: when the engine receives the sensitive
file patterns individually, no surviving path of any rewritten tree
matches one of them. -/

theorem engineInvertPaths_excludes (pats : List (List Nat))
    (hist : List (List (List Nat))) (tree : List (List Nat)) (path : List Nat)
    (ht : tree ∈ engineInvertPaths pats hist) (hp : path ∈ tree) :
    (pats.any fun p => globMatch p path) = false := by
  unfold engineInvertPaths at ht
  obtain ⟨t0, _, rfl⟩ := List.mem_map.mp ht
  have := (List.mem_filter.mp hp).2
  simpa using this

/-! The claims. -/

/-- C1: clean_history joins all sensitive_files entries into one
space-separated string and hands that single value to the path removal
step; the resulting single pattern matches no actual sensitive path, so a
history whose tree holds .env keeps .env after the rewrite, contradicting
the claim.  The last conjunct shows the removal the claim describes does
happen when the entries are passed individually, so the claim states the
intent and the invocation is the slip. -/
theorem c1_sensitive_paths_survive_rewrite :
    cleanHistoryPathRemoval envHistory = envHistory ∧
      strBytes ".env" ∈ (cleanHistoryPathRemoval envHistory).getD 0 [] ∧
      engineInvertPaths sensitiveFiles envHistory = [[strBytes "README.md"]] := by
  decide

/-- C2 counterexample: with the backup command failed, clean_history
still runs the destructive filter steps, and no verification step occurs
anywhere in its trace; the trace does not depend on the backup outcome at
all.  This refutes the claim that the rewrite only begins after a backup
has been verified readable and that failure refuses the operation. -/
theorem c2_rewrite_runs_without_verified_backup :
    Step.filterPaths ∈ cleanHistoryTrace false ∧
      Step.backupVerify ∉ cleanHistoryTrace false ∧
      cleanHistoryTrace false = cleanHistoryTrace true := by
  decide

/-- C2 amended: the backup bundle command is issued first, before every
destructive filter step, but the backup is never verified and the
operation proceeds identically whether or not the backup succeeded. -/
theorem c2_backup_before_destructive_steps (b : Bool) :
    (cleanHistoryTrace b).head? = some Step.backupCreate ∧
      (∀ st ∈ (cleanHistoryTrace b).tail, st.destructive = true) ∧
      Step.backupVerify ∉ cleanHistoryTrace b := by
  cases b <;> decide

/-- C3 counterexample: redaction is not idempotent.  On this content the
first pass replaces an inner URL match with the marker, after which the
URL pattern matches a span bridging the marker, so a second clean_message
application changes the content again. -/
theorem c3_redaction_not_idempotent :
    cleanMessage (cleanMessage idemC) ≠ cleanMessage idemC := by
  decide

/-- C3 amended: the marker token itself never matches any catalog rule
and is left unchanged by clean_message; idempotence nevertheless fails in
general because a later rule can match across a redaction boundary. -/
theorem c3_marker_never_rematches :
    (cleanRepoPatterns.all fun p => (findFrom p marker 0).isNone) = true ∧
      cleanMessage marker = marker := by
  decide

/-- C4: scan completeness.  Whenever the content of a commit has a match
of the catalog rule with index k, scan_commit reports a finding
referencing that rule. -/
theorem c4_scan_reports_matching_rule (content : List Nat) (k : Nat)
    (hk : k < sensPatterns.length)
    (hm : (findFrom (sensPatterns.getD k RE.eps) content 0).isSome = true) :
    k ∈ scanCommit content := by
  unfold scanCommit
  exact List.mem_filter.mpr ⟨List.mem_range.mpr hk, hm⟩

/-- Witness for C4 on the scenario A message and the api key rule. -/
theorem c4_scan_reports_matching_rule_witness :
    0 < sensPatterns.length ∧
      (findFrom (sensPatterns.getD 0 RE.eps) msgA 0).isSome = true ∧
      0 ∈ scanCommit msgA :=
  ⟨by decide, by decide,
    c4_scan_reports_matching_rule msgA 0 (by decide) (by decide)⟩

/-- C5 counterexample: a unit with two matches of the same rule at
different spans yields one finding, not two: the finding string holds
only commit hash and pattern, and the findings live in a set, so matches
of one rule collapse.  This refutes one Finding per match. -/
theorem c5_same_rule_matches_collapse :
    countMatches shp14 twoAssign = 2 ∧ scanCommit twoAssign = [13] := by
  decide

/-- C5 amended: scan_commit reports a rule exactly when the unit has at
least one match of it, and reports each rule at most once per unit
(dedup by rule, not by span); matches of different rules, overlapping or
not, are all reported. -/
theorem c5_at_most_one_finding_per_rule (content : List Nat) (k : Nat) :
    (k ∈ scanCommit content ↔
      k < sensPatterns.length ∧
        (findFrom (sensPatterns.getD k RE.eps) content 0).isSome = true) ∧
      (scanCommit content).count k ≤ 1 := by
  constructor
  · unfold scanCommit
    rw [List.mem_filter, List.mem_range]
  · have hnd : (scanCommit content).Nodup :=
      List.Nodup.filter _ (List.nodup_range _)
    exact List.nodup_iff_count_le_one.mp hnd k

/-- C6 counterexample: on the scenario A message the clean_repo rewrite
is the identity: no clean_repo pattern matches (the api key pattern of
clean_repo requires a word character directly after the key part, not a
colon), the output holds no asterisk and hence no marker, contradicting
the claim that the message reads ***REMOVED*** in place of the span. -/
theorem c6_rewrite_leaves_message_unchanged :
    cleanMessage msgA = msgA ∧ msgA.count 42 = 0 := by
  decide

/-- C6 amended: the scanner reports exactly one finding on the scenario A
message, for the api key rule (findings carry no category field), and the
rewrite leaves the message byte-identical. -/
theorem c6_scan_one_finding_rewrite_noop :
    scanCommit msgA = [0] ∧ cleanMessage msgA = msgA := by
  decide

/-- C7 counterexample: with the first commit unreadable and the second
holding a finding, the final report holds only the finding of the second
commit; nothing in the report references the failed commit, so the
per-unit error is not surfaced as a ScanError in the report. -/
theorem c7_unit_error_absent_from_report :
    scanHistory [none, some twoAssign] = [(1, 13)] ∧
      ∀ f ∈ scanHistory [none, some twoAssign], f.1 ≠ 0 := by
  decide

/-- C7 amended: a per-unit read failure never aborts the walk: the
failed commit contributes the empty finding set and the walk continues
with the remaining commits unchanged; the error is only printed, adding
nothing to the findings. -/
theorem c7_walk_continues_error_only_printed (rest : List (Option (List Nat))) :
    scanHistory (none :: rest) = scanHistoryFrom 1 rest ∧
      scanCommitOpt none = [] :=
  ⟨rfl, rfl⟩

/-- C8 counterexample: a run over a history with findings still finishes
with exit code 0, refuting the claim of a nonzero exit code when findings
exist. -/
theorem c8_findings_yet_exit_zero :
    scanHistory [some twoAssign] ≠ [] ∧
      (mainRun true [some twoAssign] true).2 = 0 := by
  decide

/-- C8 amended: main is interactive and returns without setting an exit
status on every path, so the process exit code is 0 regardless of
findings; no scan-only exit code contract exists in the code. -/
theorem c8_exit_code_always_zero (proceed : Bool)
    (units : List (Option (List Nat))) (cleanAnswer : Bool) :
    (mainRun proceed units cleanAnswer).2 = 0 := by
  unfold mainRun
  split
  · rfl
  · split
    · rfl
    · split <;> rfl

/-- C9: the transform callbacks are pure functions of their input bytes:
equal inputs give equal outputs for the message transform and for the
blob transform, and the two transforms compute the same function (the
same substitution passes over the same catalog). -/
theorem c9_transforms_pure_deterministic (d1 d2 : List Nat) (h : d1 = d2) :
    cleanMessage d1 = cleanMessage d2 ∧ cleanBlob d1 = cleanBlob d2 ∧
      cleanBlob d1 = cleanMessage d1 := by
  subst h
  exact ⟨rfl, rfl, rfl⟩

/-- Witness for C9 at a concrete input. -/
theorem c9_transforms_pure_deterministic_witness :
    cleanMessage (strBytes "data") = cleanMessage (strBytes "data") ∧
      cleanBlob (strBytes "data") = cleanBlob (strBytes "data") ∧
      cleanBlob (strBytes "data") = cleanMessage (strBytes "data") :=
  c9_transforms_pure_deterministic (strBytes "data") (strBytes "data") rfl

/-- C10: every byte string containing a run of 32 or more bytes drawn
from the hexadecimal alphabet is altered by clean_message and by
clean_blob: the hexadecimal pattern pass removes every such run and no
later pass reintroduces one, so the rewrite leaves no such content
byte-identical. -/
theorem c10_hex_run_always_redacted (s : List Nat) (j : Nat)
    (h : hexRunAt s j) : cleanMessage s ≠ s ∧ cleanBlob s ≠ s := by
  have hne : cleanMessage s ≠ s := by
    intro heq
    apply cleanMessage_noRun s j
    rw [heq]
    exact h
  exact ⟨hne, hne⟩

/-- Witness for C10: a line embedding a 40-character hexadecimal commit
id is altered (the run is replaced by the marker). -/
theorem c10_hex_run_always_redacted_witness :
    hexRunAt commitIdLine 7 ∧ cleanMessage commitIdLine ≠ commitIdLine :=
  ⟨by decide, (c10_hex_run_always_redacted commitIdLine 7 (by decide)).1⟩
